import Mathlib

/-
Verification development for the stack-stamping binary-rewriting transform
(src/stack_stamp/ss.cpp, ss.hpp).  The IR consumed by the transform
(functions, instructions, relocations, unwind programs) is the external
IRDB SDK interface; it is embedded here as explicit state that the
transform manipulates, following the narrow interface the source uses:
decoded kind predicates, target / fallthrough / indirect-target fields,
relocation sets, unwind-program references and the insert-assembly-before
operation whose contract is documented in the source (ss.cpp lines
202 to 211).

Instruction, function, relocation and unwind-program objects are
identified by numeric ids playing the role of the C++ object pointers;
pointer equality in the source is id equality here.
-/

namespace Stamper

/-- A relocation as the transform sees it: only its type string is ever
inspected (Relocation_t::getType in findRelocation). -/
structure Relocation where
  rtype : String
  deriving DecidableEq

/-- An indirect-branch target set (ICFS_t): the statically known target
instructions of a computed jump, plus the is-complete flag. -/
structure ICFS where
  targets : List Nat
  complete : Bool
  deriving DecidableEq

/-- An instruction of the IR, with exactly the fields the transform reads
or writes: the three decoded kind predicates (DecodedInstruction_t), the
direct target, the fallthrough, the indirect-branch target set, the
relocation set, the unwind-program reference, the owning function and the
assembly content.  The field endDeref models the unspecified value that
the source reads when it dereferences the end iterator of the relocation
set (see findRelocation below): C++ leaves that read undefined, so the
embedding carries the value as unconstrained input data. -/
structure Instruction where
  isRet : Bool
  isCall : Bool
  isUncondBr : Bool
  target : Option Nat
  fallthrough : Option Nat
  icfs : Option ICFS
  relocs : List Relocation
  endDeref : Option Relocation
  ehpgm : Option Nat
  func : Option Nat
  asm : String
  deriving DecidableEq

/-- A function of the IR: name, entry instruction and instruction set
(the list carries the iteration order of the std::set). -/
structure Func where
  name : String
  entry : Option Nat
  insns : List Nat
  deriving DecidableEq

/-- The content of an unwind (EH) program, which is also the cache key
type EhProgramPlaceHolder_t of the source: code alignment factor, data
alignment factor, return register, pointer size, CIE program, FDE program
and relocation set.  A DWARF program is a list of byte-coded instructions;
the relocation set of an EH program is a set of relocation objects,
compared by pointer in the source, hence a list of ids here. -/
structure EhKey where
  caf : Nat
  daf : Int
  rr : Int
  ptrsize : Nat
  cie : List (List Nat)
  fde : List (List Nat)
  relocs : List Nat
  deriving DecidableEq

/-- The whole mutable state the transform works on: the program-wide
instruction table, the function table, the table of allocated unwind
program objects (id to content), the IR-wide unwind-program registry
(getAllEhPrograms / setAllEhPrograms), the unwind-program cache
all_eh_pgms of StackStamp_t, the architecture width and stamp value, a
fresh-id allocator standing for the C++ allocator, and the three
statistics counters of StackStamp_t. -/
structure IRState where
  insns : List (Nat × Instruction)
  funcs : List (Nat × Func)
  ehContents : List (Nat × EhKey)
  registry : List Nat
  cache : List (EhKey × Nat)
  archWidth : Nat
  stampValue : Nat
  nextId : Nat
  instructionsAdded : Nat
  functionsTransformed : Nat
  functionsNotTransformed : Nat

/-- Association-list lookup by id (the first binding wins, as with a map
keyed by object identity). -/
def lookupA {α : Type} : List (Nat × α) → Nat → Option α
  | [], _ => none
  | (k, v) :: rest, i => if k = i then some v else lookupA rest i

/-- Association-list update of an existing binding. -/
def updateA {α : Type} : List (Nat × α) → Nat → α → List (Nat × α)
  | [], _, _ => []
  | (k, v) :: rest, i, w => if k = i then (i, w) :: rest else (k, v) :: updateA rest i w

/-- Fetch an instruction object by id. -/
def getInsn (s : IRState) (i : Nat) : Option Instruction :=
  lookupA s.insns i

/-- Replace an instruction object in place. -/
def setInsn (s : IRState) (i : Nat) (ins : Instruction) : IRState :=
  { s with insns := updateA s.insns i ins }

/-- The function owning an instruction (Instruction_t::getFunction), which
may be null for instructions outside every function. -/
def funcOfInsn (s : IRState) (i : Nat) : Option Nat :=
  (getInsn s i).bind (fun ins => ins.func)

/-- The relocation type string used throughout the transform. -/
def fixCallFallthroughString : String := "fix_call_fallthrough"

/-- Embedding of findRelocation (ss.cpp lines 48 to 56).  The source runs
find_if over the relocation set and then evaluates
(find_it==end(relocs)) ? *find_it : NULL
so when a relocation of the requested type IS found the function returns
NULL, and when none is found it dereferences the end iterator; the value
of that invalid read is undefined in C++ and is modelled by the
instruction field endDeref. -/
def findRelocation (insn : Instruction) (ty : String) : Option Relocation :=
  match insn.relocs.find? (fun r => r.rtype == ty) with
  | some _ => none
  | none => insn.endDeref

/-- True exactly when evaluating findRelocation on this instruction and
type makes the source dereference the end iterator of the relocation set,
i.e. when no relocation of the requested type exists. -/
def findRelocationDerefsEnd (insn : Instruction) (ty : String) : Bool :=
  (insn.relocs.find? (fun r => r.rtype == ty)).isNone

/-- Whether the direct target of the instruction exists and lies outside
the given function: target && target->getFunction() != f in the source
(a null owning function also counts as different from f). -/
def targetLeaves (s : IRState) (fid : Nat) (insn : Instruction) : Bool :=
  match insn.target with
  | none => false
  | some t => funcOfInsn s t != some fid

/-- The per-instruction body of the eligibility loop of can_stamp
(ss.cpp lines 93 to 183), returning false exactly when the source
executes a return false.  The two assert statements of the indirect
branch arm (no fallthrough, nonempty target set) abort the process in the
source and are not modelled; the assert(0) arm is unreachable because the
two preceding tests cover all cases. -/
def insnCanStamp (s : IRState) (fid : Nat) (insn : Instruction) : Bool :=
  let reloc := findRelocation insn fixCallFallthroughString
  if insn.isRet then
    true
  else if insn.isCall || reloc.isSome then
    true
  else if targetLeaves s fid insn then
    insn.fallthrough == none
  else if insn.isUncondBr then
    match insn.icfs with
    | some ic =>
      let mightLeave := ic.targets.any (fun t => funcOfInsn s t != some fid)
      let mightStay := ic.targets.any (fun t => funcOfInsn s t == some fid)
      !mightLeave || !mightStay
    | none => true
  else
    true

/-- Embedding of StackStamp_t::can_stamp (ss.cpp lines 80 to 187): reject
functions without an entry point, the function named _start, and
functions with three or fewer instructions; otherwise every instruction
must pass the eligibility loop. -/
def canStamp (s : IRState) (fid : Nat) : Bool :=
  match lookupA s.funcs fid with
  | none => false
  | some f =>
    match f.entry with
    | none => false
    | some _ =>
      if f.name == "_start" then false
      else if f.insns.length ≤ 3 then false
      else f.insns.all (fun i =>
        match getInsn s i with
        | some insn => insnCanStamp s fid insn
        | none => true)

/-- Stack-pointer register name by architecture width
(ss.cpp line 197): rsp on a 64-bit target, esp otherwise. -/
def spreg (w : Nat) : String :=
  if w == 64 then "rsp" else "esp"

/-- Lowercase hexadecimal rendering of a natural number, as the
stringstream with std::hex produces in the source. -/
def hexString (n : Nat) : String :=
  ⟨Nat.toDigits 16 n⟩

/-- The assembly text emitted for one stamp (ss.cpp line 199): the
operand size keyword is the literal dword for both architecture widths;
only the stack register name depends on the width. -/
def stampAssembly (w : Nat) (v : Nat) : String :=
  " xor dword [" ++ spreg w ++ "], 0x" ++ hexString v

/-- Embedding of the IRDB insertAssemblyBefore operation, following the
contract documented in the source (ss.cpp lines 202 to 211): the old
instruction is copied to a new Instruction_t placed immediately after,
and the old object is overwritten with the new assembly; held references
to the old object now denote the inserted instruction.  The overwritten
object keeps its relocation set, unwind program and owning function; its
decoded kind, target and indirect targets become those of the plain xor
instruction, and its fallthrough is the relocated copy.  The new
instruction joins the instruction set of the owning function (the insert
family of functions modifies f->getInstructions(), ss.cpp line 395). -/
def insertAssemblyBefore (s : IRState) (iid : Nat) (asmStr : String) : IRState × Nat :=
  match getInsn s iid with
  | none => (s, s.nextId)
  | some insn =>
    let j := s.nextId
    let before : Instruction :=
      { insn with
        isRet := false, isCall := false, isUncondBr := false,
        target := none, icfs := none,
        fallthrough := some j, asm := asmStr }
    let funcs :=
      match insn.func with
      | some fo =>
        match lookupA s.funcs fo with
        | some fn => updateA s.funcs fo { fn with insns := fn.insns ++ [j] }
        | none => s.funcs
      | none => s.funcs
    ({ s with
       insns := (j, insn) :: updateA s.insns iid before,
       funcs := funcs,
       nextId := s.nextId + 1 }, j)

/-- Embedding of the instruction-level StackStamp_t::stamp (ss.cpp lines
192 to 226): build the xor assembly from the architecture width and the
stamp value of the function (get_stamp returns the global stamp value),
insert it before the instruction and bump the instructions-added
counter. -/
def stampInsn (s : IRState) (iid : Nat) : IRState :=
  let r := insertAssemblyBefore s iid (stampAssembly s.archWidth s.stampValue)
  { r.1 with instructionsAdded := r.1.instructionsAdded + 1 }

/-- One iteration of the instrumentation loop of the function-level
StackStamp_t::stamp (ss.cpp lines 399 to 473), acting on the state and
extending the log of stamped instruction ids (the log mirrors the
per-stamp diagnostic output).  Classification mirrors can_stamp; the
loop asserts of the source are not modelled (they hold on every state
the loop reaches after can_stamp has passed). -/
def stampLoopStep (fid : Nat) (acc : IRState × List Nat) (iid : Nat) : IRState × List Nat :=
  let s := acc.1
  match getInsn s iid with
  | none => acc
  | some insn =>
    let reloc := findRelocation insn fixCallFallthroughString
    if insn.isRet then
      (stampInsn s iid, acc.2 ++ [iid])
    else if insn.isCall || reloc.isSome then
      acc
    else if targetLeaves s fid insn then
      (stampInsn s iid, acc.2 ++ [iid])
    else if insn.isUncondBr then
      match insn.icfs with
      | some ic =>
        let mightLeave := ic.targets.any (fun t => funcOfInsn s t != some fid)
        let mightStay := ic.targets.any (fun t => funcOfInsn s t == some fid)
        let definitelyLeaves := !mightStay
        if ((lookupA s.funcs fid).bind (fun f => f.entry)) == some iid then
          (stampInsn s iid, acc.2 ++ [iid])
        else if definitelyLeaves || (mightLeave && !ic.complete) then
          (stampInsn s iid, acc.2 ++ [iid])
        else
          acc
      | none => acc
    else
      acc

/-- One iteration of the entry-skip patch loop (ss.cpp lines 483 to 495):
an instruction of the pre-stamp snapshot whose current direct target is
the entry instruction and which is not a call is retargeted to the
current fallthrough of the entry. -/
def patchStep (e : Nat) (s : IRState) (iid : Nat) : IRState :=
  match getInsn s iid with
  | none => s
  | some insn =>
    if insn.target == some e && !insn.isCall then
      setInsn s iid { insn with target := (getInsn s e).bind (fun en => en.fallthrough) }
    else
      s

/-- The constant prefix of the compensating DWARF instruction built by
eh_update (ss.cpp lines 253 to 271), by architecture width. -/
def dwarfPrefix (w : Nat) : List Nat :=
  if w == 64 then [0x16, 0x10, 0x0D, 0x38, 0x1c, 0x06]
  else [0x16, 0x08, 0x09, 0x34, 0x1c, 0x06]

/-- Little-endian byte rendering of the stamp value at the given byte
width (ss.cpp line 279; the source notes the host-endianness caveat and
the embedding fixes little-endian). -/
def leBytes : Nat → Nat → List Nat
  | 0, _ => []
  | n + 1, v => (v % 256) :: leBytes n (v / 256)

/-- The full compensating DWARF instruction of eh_update (ss.cpp lines
280 to 282): prefix, DW_OP_addr with the stamp value operand, DW_OP_xor. -/
def dwarfInstruction (w : Nat) (v : Nat) : List Nat :=
  dwarfPrefix w ++ ([0x03] ++ leBytes (w / 8) v) ++ [0x27]

/-- The cache key derived for an instruction whose old unwind program has
the given content: the compensating DWARF instruction is inserted at the
front of the FDE program (ss.cpp lines 307 to 314). -/
def deriveKey (w : Nat) (v : Nat) (c : EhKey) : EhKey :=
  { c with fde := dwarfInstruction w v :: c.fde }

/-- Strict lexicographic comparison of two lists by a strict element
comparison, as std::lexicographical_compare performs it. -/
def listLtBy {α : Type} (lt : α → α → Bool) : List α → List α → Bool
  | [], [] => false
  | [], _ :: _ => true
  | _ :: _, [] => false
  | a :: as, b :: bs =>
    if lt a b then true
    else if lt b a then false
    else listLtBy lt as bs

/-- Comparison of DWARF byte strings (std::string operator<). -/
def byteStrLt (a b : List Nat) : Bool :=
  listLtBy (fun x y => decide (x < y)) a b

/-- Comparison of DWARF program listings (vector of strings). -/
def listingLt (a b : List (List Nat)) : Bool :=
  listLtBy byteStrLt a b

/-- Comparison of relocation sets of unwind programs: the source compares
std::set<Relocation_t*> values, i.e. lexicographically by pointer. -/
def relocSetLt (a b : List Nat) : Bool :=
  listLtBy (fun x y => decide (x < y)) a b

/-- Embedding of Stamper::operator< on EhProgramPlaceHolder_t (ss.cpp
lines 568 to 572): lexicographic comparison of the tied seven fields. -/
def ehKeyLt (a b : EhKey) : Bool :=
  if a.caf < b.caf then true
  else if b.caf < a.caf then false
  else if a.daf < b.daf then true
  else if b.daf < a.daf then false
  else if a.rr < b.rr then true
  else if b.rr < a.rr then false
  else if a.ptrsize < b.ptrsize then true
  else if b.ptrsize < a.ptrsize then false
  else if listingLt a.cie b.cie then true
  else if listingLt b.cie a.cie then false
  else if listingLt a.fde b.fde then true
  else if listingLt b.fde a.fde then false
  else relocSetLt a.relocs b.relocs

/-- Lookup in the unwind-program cache, with the equivalence the ordered
map all_eh_pgms uses: neither key is less than the other. -/
def cacheFind (c : List (EhKey × Nat)) (k : EhKey) : Option Nat :=
  (c.find? (fun e => !ehKeyLt e.1 k && !ehKeyLt k e.1)).map (fun e => e.2)

/-- One iteration of the eh_update loop (ss.cpp lines 297 to 337):
instructions without unwind info are skipped; otherwise the derived
program is looked up in the cache; on a miss a new unwind program object
is created from the placeholder fields via the IRDB addEhProgram
interface (which attaches the new program to the instruction and
registers it), its relocations are copied from the placeholder, and the
cache records the new value; on a hit the instruction is re-pointed at
the cached object. -/
def ehUpdateStep (s : IRState) (iid : Nat) : IRState :=
  match getInsn s iid with
  | none => s
  | some insn =>
    match insn.ehpgm with
    | none => s
    | some pid =>
      match lookupA s.ehContents pid with
      | none => s
      | some content =>
        let nep := deriveKey s.archWidth s.stampValue content
        match cacheFind s.cache nep with
        | none =>
          let p := s.nextId
          { s with
            insns := updateA s.insns iid { insn with ehpgm := some p },
            ehContents := (p, nep) :: s.ehContents,
            registry := s.registry ++ [p],
            cache := (nep, p) :: s.cache,
            nextId := s.nextId + 1 }
        | some p =>
          setInsn s iid { insn with ehpgm := some p }

/-- Embedding of StackStamp_t::eh_update (ss.cpp lines 231 to 338): run
the cache-sharing update over every instruction currently in the
function. -/
def ehUpdate (s : IRState) (fid : Nat) : IRState :=
  match lookupA s.funcs fid with
  | none => s
  | some f => f.insns.foldl ehUpdateStep s

/-- Embedding of the function-level StackStamp_t::stamp (ss.cpp lines 369
to 499), also returning the list of instruction ids the pass stamped (in
order; the id of the unconditional final entry stamp is last).  A
rejected function only bumps the skipped counter.  The two none arms are
unreachable because can_stamp requires the function and its entry to
exist. -/
def stampFuncLog (s : IRState) (fid : Nat) : IRState × List Nat :=
  if canStamp s fid then
    match lookupA s.funcs fid with
    | some f =>
      match f.entry with
      | some e =>
        let s0 := { s with functionsTransformed := s.functionsTransformed + 1 }
        let r := f.insns.foldl (stampLoopStep fid) (s0, [])
        let s2 := stampInsn r.1 e
        let s3 := f.insns.foldl (patchStep e) s2
        (ehUpdate s3 fid, r.2 ++ [e])
      | none => ({ s with functionsTransformed := s.functionsTransformed + 1 }, [])
    | none => ({ s with functionsTransformed := s.functionsTransformed + 1 }, [])
  else
    ({ s with functionsNotTransformed := s.functionsNotTransformed + 1 }, [])

/-- The function-level stamp without its diagnostic log. -/
def stampFunc (s : IRState) (fid : Nat) : IRState :=
  (stampFuncLog s fid).1

/-- One step of the registry recomputation of cleanup_eh_pgms: a non-null
unwind-program reference joins the recomputed set. -/
def collectEhStep (acc : List Nat) (e : Nat × Instruction) : List Nat :=
  match e.2.ehpgm with
  | some p => if acc.contains p then acc else acc ++ [p]
  | none => acc

/-- Embedding of StackStamp_t::cleanup_eh_pgms (ss.cpp lines 343 to 364):
recompute the set of unwind programs referenced by any instruction of the
whole program and install it as the new registry. -/
def cleanupEhPgms (s : IRState) : IRState :=
  { s with registry := s.insns.foldl collectEhStep [] }

/-- Lexicographic comparison of strings by character, as std::string
operator< compares function names. -/
def strLtL (a b : String) : Bool :=
  listLtBy (fun x y : Char => decide (x < y)) a.toList b.toList

/-- The function ordering of the nameSorter of execute (ss.cpp lines 508
to 518): by name first, then by pointer value to break ties. -/
def funcOrderLt (a b : Nat × Func) : Bool :=
  if strLtL a.2.name b.2.name then true
  else if strLtL b.2.name a.2.name then false
  else decide (a.1 < b.1)

/-- Insertion into a sorted list under a boolean order. -/
def insertSorted {α : Type} (lt : α → α → Bool) (x : α) : List α → List α
  | [] => [x]
  | y :: ys => if lt x y then x :: y :: ys else y :: insertSorted lt x ys

/-- Insertion sort under a boolean order, modelling the sorted std::set
traversal of execute. -/
def sortBy {α : Type} (lt : α → α → Bool) : List α → List α
  | [] => []
  | x :: xs => insertSorted lt x (sortBy lt xs)

/-- One traversal step of execute (ss.cpp lines 528 to 538): when the cap
is set and the transformed counter exceeds it, the function is bypassed;
otherwise it is stamped. -/
def execStep (ssMax : Option Nat) (s : IRState) (fid : Nat) : IRState :=
  match ssMax with
  | some n => if s.functionsTransformed > n then s else stampFunc s fid
  | none => stampFunc s fid

/-- Embedding of StackStamp_t::execute (ss.cpp lines 504 to 561): stamp
the functions in deterministic name order subject to the optional
SS_MAX_DO_TRANSFORM cap, clean up the unwind-program registry, and
report success exactly when at least one function was transformed. -/
def execute (s : IRState) (ssMax : Option Nat) : IRState × Bool :=
  let sorted := sortBy funcOrderLt s.funcs
  let s1 := (sorted.map (fun e => e.1)).foldl (execStep ssMax) s
  let s2 := cleanupEhPgms s1
  (s2, s2.functionsTransformed > 0)

/-- An instruction with every field at its neutral value, used to build
the concrete programs below. -/
def defInsn : Instruction :=
  { isRet := false, isCall := false, isUncondBr := false,
    target := none, fallthrough := none, icfs := none,
    relocs := [], endDeref := none, ehpgm := none, func := none, asm := "" }

/-- A relocation of the fixed-call type. -/
def fcfReloc : Relocation := { rtype := fixCallFallthroughString }

/-- An arbitrary non-null relocation value, standing for garbage read by
an invalid iterator dereference. -/
def junkReloc : Relocation := { rtype := "junk" }

/-- A fresh state over the given instruction and function tables, on a
64-bit target with stamp value 5. -/
def mkState (ins : List (Nat × Instruction)) (fns : List (Nat × Func)) : IRState :=
  { insns := ins, funcs := fns, ehContents := [], registry := [], cache := [],
    archWidth := 64, stampValue := 5, nextId := 100,
    instructionsAdded := 0, functionsTransformed := 0, functionsNotTransformed := 0 }

/-- A return instruction of function 1 tagged with the fixed-call
relocation (every relocation lookup on it is defined: the source finds
the relocation and returns null). -/
def taggedRet1 : Instruction :=
  { defInsn with isRet := true, relocs := [fcfReloc], func := some 1, asm := "ret" }

/-- Program for claim C1, rejection half: function f (id 1) has four
instructions, each carrying a fix_call_fallthrough relocation, among them
instruction 11, a non-call branch with direct target 90 in function g and
a non-null fallthrough.  Every relocation lookup is defined. -/
def exC1a : IRState :=
  mkState
    [(10, taggedRet1),
     (11, { defInsn with
              target := some 90, fallthrough := some 12,
              relocs := [fcfReloc], func := some 1, asm := "jne 0x90" }),
     (12, { taggedRet1 with asm := "ret12" }),
     (13, { taggedRet1 with asm := "ret13" }),
     (90, { defInsn with isRet := true, func := some 2, asm := "ret90" })]
    [(1, { name := "f", entry := some 10, insns := [10, 11, 12, 13] }),
     (2, { name := "g", entry := some 90, insns := [90] })]

/-- Program for claim C1, stamping half: as exC1a but instruction 11 is a
tagged unconditional tail jump (target outside, no fallthrough). -/
def exC1b : IRState :=
  mkState
    [(10, taggedRet1),
     (11, { defInsn with
              isUncondBr := true, target := some 90,
              relocs := [fcfReloc], func := some 1, asm := "jmp 0x90" }),
     (12, { taggedRet1 with asm := "ret12" }),
     (13, { taggedRet1 with asm := "ret13" }),
     (90, { defInsn with isRet := true, func := some 2, asm := "ret90" })]
    [(1, { name := "f", entry := some 10, insns := [10, 11, 12, 13] }),
     (2, { name := "g", entry := some 90, insns := [90] })]

/-- Program for claim C2: an eligible function whose entry instruction 10
is itself a return, plus three more returns; every instruction is tagged
so that all relocation lookups are defined. -/
def exC2 : IRState :=
  mkState
    [(10, taggedRet1),
     (11, { taggedRet1 with asm := "ret11" }),
     (12, { taggedRet1 with asm := "ret12" }),
     (13, { taggedRet1 with asm := "ret13" })]
    [(1, { name := "f", entry := some 10, insns := [10, 11, 12, 13] })]

/-- Witness program for the amended claim C2: an eligible function whose
entry instruction 10 is plain (stamped only by the final unconditional
entry stamp). -/
def exC2w : IRState :=
  mkState
    [(10, { defInsn with relocs := [fcfReloc], func := some 1, asm := "mov eax, 1" }),
     (11, { taggedRet1 with asm := "ret11" }),
     (12, { taggedRet1 with asm := "ret12" }),
     (13, { taggedRet1 with asm := "ret13" })]
    [(1, { name := "f", entry := some 10, insns := [10, 11, 12, 13] })]

/-- Untagged return of function 1 with the given end-iterator garbage. -/
def plainRet1 (junk : Option Relocation) : Instruction :=
  { defInsn with isRet := true, endDeref := junk, func := some 1, asm := "ret" }

/-- Program for claim C5, parametrized by the value the invalid
end-iterator dereference yields: function f (id 1) contains instruction
11, an untagged conditional branch whose target 90 lies in function g and
whose fallthrough is non-null. -/
def exD (junk : Option Relocation) : IRState :=
  mkState
    [(10, plainRet1 junk),
     (11, { defInsn with
              target := some 90, fallthrough := some 12,
              endDeref := junk, func := some 1, asm := "jne 0x90" }),
     (12, { plainRet1 junk with asm := "ret12" }),
     (13, { plainRet1 junk with asm := "ret13" }),
     (90, { defInsn with isRet := true, func := some 2, asm := "ret90" })]
    [(1, { name := "f", entry := some 10, insns := [10, 11, 12, 13] }),
     (2, { name := "g", entry := some 90, insns := [90] })]

/-- Program for claim C6, parametrized the same way: the entry
instruction 10 of function f is an untagged unconditional indirect branch
whose target set is marked complete and contains target 12 inside f and
target 90 inside g. -/
def exE (junk : Option Relocation) : IRState :=
  mkState
    [(10, { defInsn with
              isUncondBr := true,
              icfs := some { targets := [12, 90], complete := true },
              endDeref := junk, func := some 1, asm := "jmp [rax*8]" }),
     (11, { plainRet1 junk with asm := "ret11" }),
     (12, { plainRet1 junk with asm := "ret12" }),
     (13, { plainRet1 junk with asm := "ret13" }),
     (90, { defInsn with isRet := true, func := some 2, asm := "ret90" })]
    [(1, { name := "f", entry := some 10, insns := [10, 11, 12, 13] }),
     (2, { name := "g", entry := some 90, insns := [90] })]

/-- Program for claim C9: two eligible functions fa (id 1) and fb (id 2),
four tagged returns each. -/
def exTwoFuncs : IRState :=
  mkState
    [(10, taggedRet1),
     (11, { taggedRet1 with asm := "ret11" }),
     (12, { taggedRet1 with asm := "ret12" }),
     (13, { taggedRet1 with asm := "ret13" }),
     (20, { taggedRet1 with func := some 2 }),
     (21, { taggedRet1 with func := some 2, asm := "ret21" }),
     (22, { taggedRet1 with func := some 2, asm := "ret22" }),
     (23, { taggedRet1 with func := some 2, asm := "ret23" })]
    [(1, { name := "fa", entry := some 10, insns := [10, 11, 12, 13] }),
     (2, { name := "fb", entry := some 20, insns := [20, 21, 22, 23] })]

/-- A sample unwind-program content. -/
def ehKey0 : EhKey :=
  { caf := 1, daf := -8, rr := 16, ptrsize := 8,
    cie := [[0x0c, 0x07, 0x08]], fde := [[0x41, 0x0e, 0x10]], relocs := [] }

/-- Witness program for claim C3: instructions 10 (function 1) and 20
(function 2) reference distinct unwind-program objects 50 and 51 with
content-equal programs. -/
def exEh : IRState :=
  { mkState
      [(10, { defInsn with isRet := true, ehpgm := some 50, func := some 1, asm := "ret" }),
       (20, { defInsn with isRet := true, ehpgm := some 51, func := some 2, asm := "ret" })]
      [(1, { name := "f", entry := some 10, insns := [10] }),
       (2, { name := "g", entry := some 20, insns := [20] })]
    with ehContents := [(50, ehKey0), (51, ehKey0)] }

/-- Whether the first list is a prefix of the second (decision procedure
used for substring search on assembly text). -/
def prefListL {α : Type} [DecidableEq α] : List α → List α → Bool
  | [], _ => true
  | _ :: _, [] => false
  | p :: ps, x :: xs => if p = x then prefListL ps xs else false

/-- Whether the first list occurs contiguously inside the second. -/
def infListL {α : Type} [DecidableEq α] : List α → List α → Bool
  | pat, [] => match pat with | [] => true | _ :: _ => false
  | pat, x :: xs => prefListL pat (x :: xs) || infListL pat xs

/-- Whether the string pat occurs contiguously inside the string s. -/
def strContainsStr (s pat : String) : Bool :=
  infListL pat.toList s.toList

/-- The instruction list of a function in the current state (empty when
the function id is absent). -/
def funcInsnIds (s : IRState) (fid : Nat) : List Nat :=
  match lookupA s.funcs fid with
  | some f => f.insns
  | none => []

/-- The eh_update loop body folded over an explicit list of instruction
ids. -/
def ehStepRun (s : IRState) (ids : List Nat) : IRState :=
  ids.foldl ehUpdateStep s

/-- The state after eh_update has run over every function of the given
list, in order. -/
def ehUpdateAll (s : IRState) (fids : List Nat) : IRState :=
  fids.foldl ehUpdate s

/-- The concatenated instruction lists of the given functions, as they
are when eh_update starts. -/
def funcInsnConcat (s : IRState) : List Nat → List Nat
  | [] => []
  | f :: fs => funcInsnIds s f ++ funcInsnConcat s fs

/-- Well-formedness of the unwind-program bookkeeping: the content of
every cached unwind program object equals its cache key, cache keys
determine cache values, and every allocated unwind-program object id is
below the fresh-id allocator. -/
@[reducible] def EhWFP (s : IRState) : Prop :=
  (∀ e ∈ s.cache, lookupA s.ehContents e.2 = some e.1) ∧
  (∀ e1 ∈ s.cache, ∀ e2 ∈ s.cache, e1.1 = e2.1 → e1.2 = e2.2) ∧
  (∀ e ∈ s.ehContents, e.1 < s.nextId)

/-- Witness program for the amended claim C4: one tagged return. -/
def exC4w : IRState :=
  mkState [(10, taggedRet1)] [(1, { name := "f", entry := some 10, insns := [10] })]

/-- Witness program for claim C7: instruction 10 stands for the stamped
entry (fallthrough 99), instruction 11 is a non-call branch targeting the
entry, instruction 12 is a call targeting the entry. -/
def exC7w : IRState :=
  mkState
    [(10, { defInsn with fallthrough := some 99, func := some 1, asm := " xor dword [rsp], 0x5" }),
     (11, { defInsn with isUncondBr := true, target := some 10, func := some 1, asm := "jmp 0x10" }),
     (12, { defInsn with isCall := true, target := some 10, fallthrough := some 13, func := some 1, asm := "call 0x10" }),
     (13, { taggedRet1 with asm := "ret13" })]
    [(1, { name := "f", entry := some 10, insns := [10, 11, 12, 13] })]

/-! Association-list lemmas used throughout the development. -/

theorem lookupA_mem {α : Type} {l : List (Nat × α)} {k : Nat} {v : α}
    (h : lookupA l k = some v) : (k, v) ∈ l := by
  induction l with
  | nil => simp [lookupA] at h
  | cons a rest ih =>
    obtain ⟨ak, av⟩ := a
    by_cases hk : ak = k
    · subst hk
      simp [lookupA] at h
      subst h
      exact List.mem_cons_self _ _
    · simp only [lookupA, if_neg hk] at h
      exact List.mem_cons_of_mem _ (ih h)

theorem lookupA_updateA_self {α : Type} {l : List (Nat × α)} {k : Nat} {v : α} (w : α)
    (h : lookupA l k = some v) : lookupA (updateA l k w) k = some w := by
  induction l with
  | nil => simp [lookupA] at h
  | cons a rest ih =>
    obtain ⟨ak, av⟩ := a
    by_cases hk : ak = k
    · subst hk
      simp [lookupA, updateA]
    · simp only [lookupA, if_neg hk] at h
      simp only [updateA, if_neg hk, lookupA, if_neg hk]
      exact ih h

theorem lookupA_updateA_ne {α : Type} (l : List (Nat × α)) (k j : Nat) (w : α)
    (hne : j ≠ k) : lookupA (updateA l k w) j = lookupA l j := by
  induction l with
  | nil => simp [updateA]
  | cons a rest ih =>
    obtain ⟨ak, av⟩ := a
    by_cases hk : ak = k
    · subst hk
      simp only [updateA, if_pos rfl, lookupA]
      rw [if_neg (fun h => hne h.symm), if_neg (fun h => hne h.symm)]
    · simp only [updateA, if_neg hk, lookupA]
      by_cases hj : ak = j
      · simp [hj]
      · rw [if_neg hj, if_neg hj]
        exact ih

/-- Claim C10: the claim states that findRelocation never dereferences an
invalid iterator, i.e. that the expression behind find_it is evaluated
only when find_it denotes an element of the relocation set.  The source
has the ternary arms swapped: it dereferences the end iterator exactly
when no relocation of the requested type exists (here: an instruction
with an empty relocation set), and returns null when one is found. -/
theorem c10_findRelocation_derefs_end_iterator :
    findRelocationDerefsEnd defInsn fixCallFallthroughString = true ∧
    findRelocation { defInsn with relocs := [fcfReloc] } fixCallFallthroughString = none := by
  decide

/-- Claim C1: the claim states that an instruction tagged with a
fix_call_fallthrough relocation is treated exactly like a call by
can_stamp and by the instrumentation loop: never a cause of rejection and
never stamped.  Because findRelocation returns null precisely when the
relocation is found, the code does the opposite on fully defined
executions: in exC1a every instruction of function 1 carries the tag, yet
the tagged conditional exit branch makes can_stamp reject the function;
in exC1b the tagged tail jump (instruction 11) is stamped by the loop. -/
theorem c1_fixed_call_mistreated :
    ((funcInsnIds exC1a 1).all (fun i =>
        match getInsn exC1a i with
        | some ins => ins.relocs.contains fcfReloc
        | none => false)) = true ∧
    canStamp exC1a 1 = false ∧
    ((funcInsnIds exC1b 1).all (fun i =>
        match getInsn exC1b i with
        | some ins => ins.relocs.contains fcfReloc
        | none => false)) = true ∧
    ((stampFuncLog exC1b 1).2.contains 11) = true := by
  decide

/-- Claim C2, counterexample: on the eligible function of exC2, whose
entry instruction 10 is a return, the pass stamps the entry twice (once
in the instrumentation loop because it is a return, once by the
unconditional final entry stamp): the stamp log counts instruction 10
twice, and in the final state two copies of the xor stamp precede the
relocated original return. -/
theorem c2_counterexample :
    ((stampFuncLog exC2 1).2.count 10) = 2 ∧
    ((getInsn (stampFuncLog exC2 1).1 10).map (fun i => i.asm)) = some (stampAssembly 64 5) ∧
    ((getInsn (stampFuncLog exC2 1).1 10).bind (fun i => i.fallthrough)) = some 104 ∧
    ((getInsn (stampFuncLog exC2 1).1 104).map (fun i => i.asm)) = some (stampAssembly 64 5) ∧
    ((getInsn (stampFuncLog exC2 1).1 104).bind (fun i => i.fallthrough)) = some 100 ∧
    ((getInsn (stampFuncLog exC2 1).1 100).map (fun i => i.asm)) = some "ret" := by
  decide

/-- Claim C4, counterexample: the claim states that on a 64-bit target
the emitted stamp instruction has a 64-bit operand; the emitted assembly
uses the 32-bit operand keyword dword on both widths (only the stack
register name differs), so it never contains the 64-bit keyword qword. -/
theorem c4_counterexample :
    strContainsStr (stampAssembly 64 5) "qword" = false ∧
    strContainsStr (stampAssembly 64 5) "dword" = true ∧
    strContainsStr (stampAssembly 64 5) "rsp" = true ∧
    stampAssembly 64 5 = " xor dword [rsp], 0x5" := by
  decide

/-- Claim C5: the claim states that a function containing a conditional
branch that exits the function (direct target outside, non-null
fallthrough) is always rejected by can_stamp with zero stamps inserted.
On such a function the source dereferences the end iterator of the
relocation set of every untagged instruction, so the decision depends on
the garbage that read yields: with a null read the function is rejected
as claimed, but with any non-null read the branch is misclassified as a
fixed call, the function is accepted, and four stamps are inserted. -/
theorem c5_rejection_depends_on_invalid_deref :
    canStamp (exD none) 1 = false ∧
    canStamp (exD (some junkReloc)) 1 = true ∧
    ((getInsn (exD none) 11).map (fun i =>
        findRelocationDerefsEnd i fixCallFallthroughString)) = some true ∧
    (stampFunc (exD (some junkReloc)) 1).instructionsAdded = 4 := by
  decide

/-- Claim C6: the claim states that a function whose unconditional
indirect branch has both in-function and out-of-function targets is
always rejected with zero instructions added, even with a complete
target set.  As in C5 the decision rests on the value read by the invalid
end-iterator dereference: a null read rejects the function as claimed,
but any non-null read makes the ambiguous indirect branch (here the
entry of exE, target set marked complete with targets 12 inside and 90
outside) pass as a fixed call, the function is accepted, and four stamps
are inserted. -/
theorem c6_rejection_depends_on_invalid_deref :
    canStamp (exE none) 1 = false ∧
    canStamp (exE (some junkReloc)) 1 = true ∧
    ((getInsn (exE none) 10).map (fun i =>
        findRelocationDerefsEnd i fixCallFallthroughString)) = some true ∧
    (stampFunc (exE (some junkReloc)) 1).instructionsAdded = 4 := by
  decide

/-- Claim C9, counterexample: with the cap SS_MAX_DO_TRANSFORM set to 0,
execute still transforms one function of exTwoFuncs, because the bypass
test compares with strict greater-than before stamping; so at most N
functions is violated (N plus one are possible). -/
theorem c9_counterexample :
    (execute exTwoFuncs (some 0)).1.functionsTransformed = 1 := by
  decide

/-! Lemmas about the registry recomputation of cleanup_eh_pgms. -/

theorem mem_collectEhStep (acc : List Nat) (a : Nat × Instruction) (p : Nat) :
    p ∈ collectEhStep acc a ↔ p ∈ acc ∨ a.2.ehpgm = some p := by
  unfold collectEhStep
  cases h : a.2.ehpgm with
  | none => simp
  | some q =>
    by_cases hc : acc.contains q = true
    · have hq : q ∈ acc := by simpa using hc
      simp only [if_pos hc]
      constructor
      · exact fun hp => Or.inl hp
      · rintro (hp | hp)
        · exact hp
        · obtain rfl : q = p := by simpa using hp
          exact hq
    · simp only [if_neg hc, List.mem_append, List.mem_singleton]
      constructor
      · rintro (hp | hp)
        · exact Or.inl hp
        · exact Or.inr (by simp [hp])
      · rintro (hp | hp)
        · exact Or.inl hp
        · obtain rfl : q = p := by simpa using hp
          exact Or.inr rfl

theorem mem_foldl_collectEhStep (l : List (Nat × Instruction)) (acc : List Nat) (p : Nat) :
    p ∈ l.foldl collectEhStep acc ↔ p ∈ acc ∨ ∃ e ∈ l, e.2.ehpgm = some p := by
  induction l generalizing acc with
  | nil => simp
  | cons a rest ih =>
    rw [List.foldl_cons, ih, mem_collectEhStep]
    constructor
    · rintro ((h | h) | ⟨e, he, hp⟩)
      · exact Or.inl h
      · exact Or.inr ⟨a, List.mem_cons_self _ _, h⟩
      · exact Or.inr ⟨e, List.mem_cons_of_mem _ he, hp⟩
    · rintro (h | ⟨e, he, hp⟩)
      · exact Or.inl (Or.inl h)
      · rcases List.mem_cons.mp he with rfl | he2
        · exact Or.inl (Or.inr hp)
        · exact Or.inr ⟨e, he2, hp⟩

/-- Claim C8: after cleanup_eh_pgms, the unwind-program registry equals
exactly the set of unwind programs referenced by the instructions of the
program: every registered program is referenced by at least one
instruction, and every non-null unwind-program reference of an
instruction is registered. -/
theorem c8_registry_equals_referenced (s : IRState) :
    (∀ p ∈ (cleanupEhPgms s).registry, ∃ e ∈ (cleanupEhPgms s).insns, e.2.ehpgm = some p) ∧
    (∀ e ∈ (cleanupEhPgms s).insns, ∀ p, e.2.ehpgm = some p → p ∈ (cleanupEhPgms s).registry) := by
  constructor
  · intro p hp
    have h := (mem_foldl_collectEhStep s.insns [] p).mp hp
    simpa using h
  · intro e he p hp
    exact (mem_foldl_collectEhStep s.insns [] p).mpr (Or.inr ⟨e, he, hp⟩)

/-- Claim C4, amended: every stamp insertion emits the instruction
" xor dword [rsp or esp], 0x..", i.e. the word XORed at the top of the
stack always has 32-bit operand naming (dword) while the stack register
name follows the architecture width; the stamp is placed immediately
before the protected instruction (the protected object is overwritten
with the stamp and its fallthrough becomes the relocated copy), the
original content moves to the position immediately after, and the
instructions-added counter grows by one. -/
theorem c4_amended (s : IRState) (i : Nat) (ins : Instruction)
    (hi : getInsn s i = some ins) (hlt : i < s.nextId) :
    getInsn (stampInsn s i) i = some { ins with
      isRet := false, isCall := false, isUncondBr := false,
      target := none, icfs := none,
      fallthrough := some s.nextId,
      asm := stampAssembly s.archWidth s.stampValue } ∧
    getInsn (stampInsn s i) s.nextId = some ins ∧
    (stampInsn s i).instructionsAdded = s.instructionsAdded + 1 ∧
    spreg 64 = "rsp" ∧ spreg 32 = "esp" := by
  have hne : i ≠ s.nextId := Nat.ne_of_lt hlt
  unfold stampInsn insertAssemblyBefore
  rw [hi]
  refine ⟨?_, ?_, rfl, rfl, rfl⟩
  · show lookupA ((s.nextId, ins) :: updateA s.insns i _) i = _
    rw [lookupA, if_neg (fun h => hne h.symm)]
    exact lookupA_updateA_self _ hi
  · show lookupA ((s.nextId, ins) :: updateA s.insns i _) s.nextId = some ins
    simp [lookupA]

/-- Witness for the amended claim C4 at a concrete input. -/
theorem c4_amended_witness :
    getInsn (stampInsn exC4w 10) 10 = some { taggedRet1 with
      isRet := false, isCall := false, isUncondBr := false,
      target := none, icfs := none,
      fallthrough := some 100,
      asm := stampAssembly 64 5 } ∧
    getInsn (stampInsn exC4w 10) 100 = some taggedRet1 ∧
    (stampInsn exC4w 10).instructionsAdded = 0 + 1 ∧
    spreg 64 = "rsp" ∧ spreg 32 = "esp" :=
  c4_amended exC4w 10 taggedRet1 rfl (by decide)

/-! Lemmas about the entry-skip patch loop. -/

theorem patchStep_getInsn_ne (e : Nat) (s : IRState) (a i : Nat) (hne : i ≠ a) :
    getInsn (patchStep e s a) i = getInsn s i := by
  cases h : getInsn s a with
  | none => simp only [patchStep, h]
  | some insn =>
    simp only [patchStep, h]
    split
    · simp only [getInsn, setInsn]
      exact lookupA_updateA_ne _ _ _ _ hne
    · rfl

theorem patchStep_entry_ft (e : Nat) (s : IRState) (a : Nat) :
    ((getInsn (patchStep e s a) e).bind (fun en => en.fallthrough)) =
    ((getInsn s e).bind (fun en => en.fallthrough)) := by
  by_cases hae : e = a
  · subst hae
    cases h : getInsn s e with
    | none => simp only [patchStep, h]
    | some insn =>
      simp only [patchStep, h]
      split
      · show ((getInsn (setInsn s e _) e).bind fun en => en.fallthrough) = _
        simp only [getInsn, setInsn]
        rw [lookupA_updateA_self _ h]
        rfl
      · rw [h]
  · rw [patchStep_getInsn_ne e s a e hae]

theorem patchRun_getInsn_not_mem (e : Nat) (l : List Nat) (s : IRState) (i : Nat)
    (hi : i ∉ l) :
    getInsn (l.foldl (patchStep e) s) i = getInsn s i := by
  induction l generalizing s with
  | nil => rfl
  | cons a rest ih =>
    rw [List.foldl_cons]
    have h1 : i ≠ a := fun h => hi (h ▸ List.mem_cons_self _ _)
    rw [ih _ (fun h => hi (List.mem_cons_of_mem _ h)), patchStep_getInsn_ne e s a i h1]

theorem patchRun_entry_ft (e : Nat) (l : List Nat) (s : IRState) :
    ((getInsn (l.foldl (patchStep e) s) e).bind (fun en => en.fallthrough)) =
    ((getInsn s e).bind (fun en => en.fallthrough)) := by
  induction l generalizing s with
  | nil => rfl
  | cons a rest ih => rw [List.foldl_cons, ih, patchStep_entry_ft]

/-- Claim C7: over the pre-stamp snapshot l of a stamped function (the
entry-skip patch loop runs exactly over that snapshot), every non-call
instruction whose direct target at patch time is the entry e is
retargeted to the fallthrough of the entry, which is never the entry
itself; call instructions are left entirely unchanged. -/
theorem c7_entry_skip_patching (e : Nat) (l : List Nat) (s : IRState)
    (hnd : l.Nodup)
    (hft : ((getInsn s e).bind (fun en => en.fallthrough)) ≠ some e) :
    ∀ i ∈ l, ∀ ins, getInsn s i = some ins →
      (ins.target = some e → ins.isCall = false →
        getInsn (l.foldl (patchStep e) s) i =
          some { ins with target := (getInsn s e).bind (fun en => en.fallthrough) } ∧
        ((getInsn (l.foldl (patchStep e) s) i).bind (fun x => x.target)) ≠ some e) ∧
      (ins.isCall = true →
        getInsn (l.foldl (patchStep e) s) i = some ins) := by
  induction l generalizing s with
  | nil => intro i hi; cases hi
  | cons a rest ih =>
    intro i hi ins hins
    have hnd2 := List.nodup_cons.mp hnd
    obtain ⟨ha, hndr⟩ := hnd2
    rw [List.foldl_cons]
    rcases List.mem_cons.mp hi with rfl | hir
    · constructor
      · intro ht hc
        have hstep : patchStep e s i =
            setInsn s i { ins with target := (getInsn s e).bind (fun en => en.fallthrough) } := by
          unfold patchStep
          rw [hins]
          dsimp only
          rw [if_pos (by simp [ht, hc])]
        have hget : getInsn (patchStep e s i) i =
            some { ins with target := (getInsn s e).bind (fun en => en.fallthrough) } := by
          rw [hstep]
          exact lookupA_updateA_self _ hins
        have hrest := patchRun_getInsn_not_mem e rest (patchStep e s i) i ha
        rw [hrest, hget]
        exact ⟨rfl, by simpa using hft⟩
      · intro hc
        have hstep : patchStep e s i = s := by
          unfold patchStep
          rw [hins]
          dsimp only
          rw [if_neg (by simp [hc])]
        rw [hstep, patchRun_getInsn_not_mem e rest s i ha]
        exact hins
    · have hia : i ≠ a := fun h => ha (h ▸ hir)
      have hpres : getInsn (patchStep e s a) i = getInsn s i :=
        patchStep_getInsn_ne e s a i hia
      have hins2 : getInsn (patchStep e s a) i = some ins := by rw [hpres]; exact hins
      have hft2 : ((getInsn (patchStep e s a) e).bind (fun en => en.fallthrough)) ≠ some e := by
        rw [patchStep_entry_ft]; exact hft
      have hih := ih (patchStep e s a) hndr hft2 i hir ins hins2
      rw [patchStep_entry_ft e s a] at hih
      exact hih

/-- Witness for claim C7 at a concrete input: in exC7w the non-call
branch 11 targeting the entry 10 is retargeted to the entry fallthrough
99, while the call 12 targeting the entry is unchanged. -/
theorem c7_witness :
    getInsn ([11, 12].foldl (patchStep 10) exC7w) 11 =
      some { defInsn with
             isUncondBr := true, target := some 99, func := some 1, asm := "jmp 0x10" } ∧
    getInsn ([11, 12].foldl (patchStep 10) exC7w) 12 =
      some { defInsn with
             isCall := true, target := some 10, fallthrough := some 13,
             func := some 1, asm := "call 0x10" } := by
  have h := c7_entry_skip_patching 10 [11, 12] exC7w (by decide) (by decide)
  refine ⟨?_, ?_⟩
  · exact ((h 11 (by decide)
      { defInsn with
        isUncondBr := true, target := some 10, func := some 1, asm := "jmp 0x10" }
      rfl).1 rfl rfl).1
  · exact (h 12 (by decide)
      { defInsn with
        isCall := true, target := some 10, fallthrough := some 13,
        func := some 1, asm := "call 0x10" }
      rfl).2 rfl

/-! Lemmas about the instrumentation loop and its stamp log. -/

theorem stampLoopStep_cases (fid : Nat) (acc : IRState × List Nat) (a : Nat) :
    stampLoopStep fid acc a = acc ∨
    stampLoopStep fid acc a = (stampInsn acc.1 a, acc.2 ++ [a]) := by
  cases h : getInsn acc.1 a with
  | none => exact Or.inl (by simp only [stampLoopStep, h])
  | some insn =>
    simp only [stampLoopStep, h]
    repeat' split
    all_goals first | exact Or.inl rfl | exact Or.inr rfl

theorem stampLoop_log_sublist (fid : Nat) (l : List Nat) (acc : IRState × List Nat) :
    ∃ ex, (l.foldl (stampLoopStep fid) acc).2 = acc.2 ++ ex ∧ ex.Sublist l := by
  induction l generalizing acc with
  | nil => exact ⟨[], by simp, List.nil_sublist []⟩
  | cons a rest ih =>
    rw [List.foldl_cons]
    rcases stampLoopStep_cases fid acc a with h | h
    · rw [h]
      obtain ⟨ex, hex, hsub⟩ := ih acc
      exact ⟨ex, hex, hsub.cons a⟩
    · rw [h]
      obtain ⟨ex, hex, hsub⟩ := ih (stampInsn acc.1 a, acc.2 ++ [a])
      refine ⟨a :: ex, ?_, hsub.cons₂ a⟩
      rw [hex]
      simp

/-- Claim C2, amended: for every eligible function, the stamp log of the
per-function pass contains the entry at least once (the unconditional
final entry stamp) and at most twice (one more when the entry itself is
classified stampable by the loop), and contains every other instruction
at most once; stamping exactly once for every instruction including the
entry does not hold, see the counterexample where the entry is a
return. -/
theorem c2_amended (s : IRState) (fid : Nat) (f : Func) (e : Nat)
    (hf : lookupA s.funcs fid = some f) (he : f.entry = some e)
    (hc : canStamp s fid = true) (hnd : f.insns.Nodup) :
    1 ≤ (stampFuncLog s fid).2.count e ∧
    (stampFuncLog s fid).2.count e ≤ 2 ∧
    ∀ i, i ≠ e → (stampFuncLog s fid).2.count i ≤ 1 := by
  obtain ⟨ex, hex, hsub⟩ := stampLoop_log_sublist fid f.insns
    ({ s with functionsTransformed := s.functionsTransformed + 1 }, [])
  have hlog : (stampFuncLog s fid).2 = ([] ++ ex) ++ [e] := by
    simp only [stampFuncLog, hc, if_true, hf, he]
    rw [← hex]
  have hcnt : ∀ i, ex.count i ≤ 1 := fun i =>
    le_trans (hsub.count_le i) (List.nodup_iff_count_le_one.mp hnd i)
  refine ⟨?_, ?_, ?_⟩
  · rw [hlog]
    simp [List.count_append]
  · rw [hlog]
    simp only [List.nil_append, List.count_append, List.count_singleton]
    have := hcnt e
    simp only [beq_self_eq_true, if_true]
    omega
  · intro i hi
    rw [hlog]
    simp only [List.nil_append, List.count_append, List.count_singleton]
    have := hcnt i
    have hne : (e == i) = false := beq_eq_false_iff_ne.mpr (fun h => hi h.symm)
    rw [hne]
    simpa using this

/-- Witness for the amended claim C2 at a concrete input. -/
theorem c2_amended_witness :
    1 ≤ (stampFuncLog exC2w 1).2.count 10 ∧
    (stampFuncLog exC2w 1).2.count 10 ≤ 2 ∧
    (stampFuncLog exC2w 1).2.count 11 ≤ 1 := by
  have h := c2_amended exC2w 1
    { name := "f", entry := some 10, insns := [10, 11, 12, 13] } 10
    rfl rfl (by decide) (by decide)
  exact ⟨h.1, h.2.1, h.2.2 11 (by decide)⟩

/-! Counter-preservation lemmas for the orchestration cap. -/

theorem stampInsn_ft (s : IRState) (i : Nat) :
    (stampInsn s i).functionsTransformed = s.functionsTransformed := by
  unfold stampInsn insertAssemblyBefore
  repeat' split
  all_goals rfl

theorem stampLoopStep_ft (fid : Nat) (acc : IRState × List Nat) (a : Nat) :
    (stampLoopStep fid acc a).1.functionsTransformed = acc.1.functionsTransformed := by
  rcases stampLoopStep_cases fid acc a with h | h
  · rw [h]
  · rw [h]
    exact stampInsn_ft acc.1 a

theorem stampLoopRun_ft (fid : Nat) (l : List Nat) (acc : IRState × List Nat) :
    (l.foldl (stampLoopStep fid) acc).1.functionsTransformed = acc.1.functionsTransformed := by
  induction l generalizing acc with
  | nil => rfl
  | cons a rest ih => rw [List.foldl_cons, ih, stampLoopStep_ft]

theorem patchStep_ft (e : Nat) (s : IRState) (a : Nat) :
    (patchStep e s a).functionsTransformed = s.functionsTransformed := by
  unfold patchStep
  repeat' split
  all_goals rfl

theorem patchRun_ft (e : Nat) (l : List Nat) (s : IRState) :
    (l.foldl (patchStep e) s).functionsTransformed = s.functionsTransformed := by
  induction l generalizing s with
  | nil => rfl
  | cons a rest ih => rw [List.foldl_cons, ih, patchStep_ft]

theorem ehUpdateStep_ft (s : IRState) (i : Nat) :
    (ehUpdateStep s i).functionsTransformed = s.functionsTransformed := by
  unfold ehUpdateStep
  split
  · rfl
  · split
    · rfl
    · split
      · rfl
      · dsimp only
        split
        · rfl
        · rfl

theorem ehUpdateRun_ft (l : List Nat) (s : IRState) :
    (l.foldl ehUpdateStep s).functionsTransformed = s.functionsTransformed := by
  induction l generalizing s with
  | nil => rfl
  | cons a rest ih => rw [List.foldl_cons, ih, ehUpdateStep_ft]

theorem ehUpdate_ft (s : IRState) (fid : Nat) :
    (ehUpdate s fid).functionsTransformed = s.functionsTransformed := by
  unfold ehUpdate
  split
  · rfl
  · exact ehUpdateRun_ft _ _

theorem stampFunc_ft_le (s : IRState) (fid : Nat) :
    (stampFunc s fid).functionsTransformed ≤ s.functionsTransformed + 1 := by
  unfold stampFunc stampFuncLog
  split
  · split
    · split
      · dsimp only
        rw [ehUpdate_ft, patchRun_ft, stampInsn_ft, stampLoopRun_ft]
      · exact le_refl _
    · exact le_refl _
  · exact Nat.le_succ _

theorem execRun_ft_le (n : Nat) (l : List Nat) (s : IRState)
    (h : s.functionsTransformed ≤ n + 1) :
    (l.foldl (execStep (some n)) s).functionsTransformed ≤ n + 1 := by
  induction l generalizing s with
  | nil => exact h
  | cons a rest ih =>
    rw [List.foldl_cons]
    apply ih
    unfold execStep
    dsimp only
    split
    · exact h
    · rename_i hgt
      have h1 := stampFunc_ft_le s a
      omega

/-- Claim C9, amended: with the cap SS_MAX_DO_TRANSFORM set to N, execute
transforms at most N plus one functions (the bypass test compares the
transformed count with strict greater-than before stamping, so the run
that brings the count from N to N plus one still proceeds); functions
visited once the count exceeds N are bypassed. -/
theorem c9_amended (s : IRState) (n : Nat) (h0 : s.functionsTransformed = 0) :
    ((execute s (some n)).1).functionsTransformed ≤ n + 1 := by
  unfold execute
  dsimp only
  show (cleanupEhPgms _).functionsTransformed ≤ n + 1
  have hcl : ∀ t : IRState, (cleanupEhPgms t).functionsTransformed = t.functionsTransformed :=
    fun t => rfl
  rw [hcl]
  apply execRun_ft_le
  omega

/-- Witness for the amended claim C9 at a concrete input. -/
theorem c9_amended_witness :
    ((execute exTwoFuncs (some 0)).1).functionsTransformed ≤ 0 + 1 :=
  c9_amended exTwoFuncs 0 rfl

/-! Properties of the ordered-map comparison on unwind-program keys:
irreflexivity and the fact that incomparability is equality, so that the
equivalence classes of the std::map are singletons. -/

theorem listLtBy_irrefl {α : Type} (lt : α → α → Bool) (h : ∀ x, lt x x = false) :
    ∀ a : List α, listLtBy lt a a = false := by
  intro a
  induction a with
  | nil => rfl
  | cons x xs ih => simp [listLtBy, h x, ih]

theorem listLtBy_conn {α : Type} (lt : α → α → Bool)
    (h : ∀ x y, lt x y = false → lt y x = false → x = y) :
    ∀ a b : List α, listLtBy lt a b = false → listLtBy lt b a = false → a = b := by
  intro a
  induction a with
  | nil =>
    intro b h1 h2
    cases b with
    | nil => rfl
    | cons y ys => simp [listLtBy] at h1
  | cons x xs ih =>
    intro b h1 h2
    cases b with
    | nil => simp [listLtBy] at h2
    | cons y ys =>
      simp only [listLtBy] at h1 h2
      cases hxy : lt x y with
      | true => rw [hxy] at h1; simp at h1
      | false =>
        cases hyx : lt y x with
        | true => rw [hyx] at h2; simp at h2
        | false =>
          rw [hxy, hyx] at h1 h2
          simp at h1 h2
          obtain rfl := h x y hxy hyx
          obtain rfl := ih ys h1 h2
          rfl

theorem byteStrLt_self (a : List Nat) : byteStrLt a a = false :=
  listLtBy_irrefl _ (fun x => by simp) a

theorem byteStrLt_conn (a b : List Nat) (h1 : byteStrLt a b = false)
    (h2 : byteStrLt b a = false) : a = b :=
  listLtBy_conn _ (fun x y hx hy => by simp at hx hy; omega) a b h1 h2

theorem listingLt_self (a : List (List Nat)) : listingLt a a = false :=
  listLtBy_irrefl _ byteStrLt_self a

theorem listingLt_conn (a b : List (List Nat)) (h1 : listingLt a b = false)
    (h2 : listingLt b a = false) : a = b :=
  listLtBy_conn _ byteStrLt_conn a b h1 h2

theorem relocSetLt_self (a : List Nat) : relocSetLt a a = false :=
  listLtBy_irrefl _ (fun x => by simp) a

theorem relocSetLt_conn (a b : List Nat) (h1 : relocSetLt a b = false)
    (h2 : relocSetLt b a = false) : a = b :=
  listLtBy_conn _ (fun x y hx hy => by simp at hx hy; omega) a b h1 h2

theorem ehKeyLt_irrefl (a : EhKey) : ehKeyLt a a = false := by
  unfold ehKeyLt
  simp [listingLt_self, relocSetLt_self]

theorem ehKeyLt_conn (a b : EhKey) (h1 : ehKeyLt a b = false)
    (h2 : ehKeyLt b a = false) : a = b := by
  unfold ehKeyLt at h1 h2
  have hcaf1 : ¬ a.caf < b.caf := by
    intro hlt; rw [if_pos hlt] at h1; exact Bool.noConfusion h1
  have hcaf2 : ¬ b.caf < a.caf := by
    intro hlt; rw [if_pos hlt] at h2; exact Bool.noConfusion h2
  rw [if_neg hcaf1, if_neg hcaf2] at h1
  rw [if_neg hcaf2, if_neg hcaf1] at h2
  have hdaf1 : ¬ a.daf < b.daf := by
    intro hlt; rw [if_pos hlt] at h1; exact Bool.noConfusion h1
  have hdaf2 : ¬ b.daf < a.daf := by
    intro hlt; rw [if_pos hlt] at h2; exact Bool.noConfusion h2
  rw [if_neg hdaf1, if_neg hdaf2] at h1
  rw [if_neg hdaf2, if_neg hdaf1] at h2
  have hrr1 : ¬ a.rr < b.rr := by
    intro hlt; rw [if_pos hlt] at h1; exact Bool.noConfusion h1
  have hrr2 : ¬ b.rr < a.rr := by
    intro hlt; rw [if_pos hlt] at h2; exact Bool.noConfusion h2
  rw [if_neg hrr1, if_neg hrr2] at h1
  rw [if_neg hrr2, if_neg hrr1] at h2
  have hps1 : ¬ a.ptrsize < b.ptrsize := by
    intro hlt; rw [if_pos hlt] at h1; exact Bool.noConfusion h1
  have hps2 : ¬ b.ptrsize < a.ptrsize := by
    intro hlt; rw [if_pos hlt] at h2; exact Bool.noConfusion h2
  rw [if_neg hps1, if_neg hps2] at h1
  rw [if_neg hps2, if_neg hps1] at h2
  have hcie1 : ¬ listingLt a.cie b.cie = true := by
    intro hlt; rw [if_pos hlt] at h1; exact Bool.noConfusion h1
  have hcie2 : ¬ listingLt b.cie a.cie = true := by
    intro hlt; rw [if_pos hlt] at h2; exact Bool.noConfusion h2
  rw [if_neg hcie1, if_neg hcie2] at h1
  rw [if_neg hcie2, if_neg hcie1] at h2
  have hfde1 : ¬ listingLt a.fde b.fde = true := by
    intro hlt; rw [if_pos hlt] at h1; exact Bool.noConfusion h1
  have hfde2 : ¬ listingLt b.fde a.fde = true := by
    intro hlt; rw [if_pos hlt] at h2; exact Bool.noConfusion h2
  rw [if_neg hfde1, if_neg hfde2] at h1
  rw [if_neg hfde2, if_neg hfde1] at h2
  obtain ⟨caf1, daf1, rr1, ps1, cie1, fde1, rel1⟩ := a
  obtain ⟨caf2, daf2, rr2, ps2, cie2, fde2, rel2⟩ := b
  simp only at hcaf1 hcaf2 hdaf1 hdaf2 hrr1 hrr2 hps1 hps2 hcie1 hcie2 hfde1 hfde2 h1 h2
  have ecaf : caf1 = caf2 := by omega
  have edaf : daf1 = daf2 := by omega
  have err : rr1 = rr2 := by omega
  have eps : ps1 = ps2 := by omega
  have ecie : cie1 = cie2 :=
    listingLt_conn _ _ (Bool.eq_false_iff.mpr (fun hx => hcie1 hx))
      (Bool.eq_false_iff.mpr (fun hx => hcie2 hx))
  have efde : fde1 = fde2 :=
    listingLt_conn _ _ (Bool.eq_false_iff.mpr (fun hx => hfde1 hx))
      (Bool.eq_false_iff.mpr (fun hx => hfde2 hx))
  have erel : rel1 = rel2 := relocSetLt_conn _ _ h1 h2
  subst ecaf; subst edaf; subst err; subst eps; subst ecie; subst efde; subst erel
  rfl

theorem cacheFind_some_mem {c : List (EhKey × Nat)} {k : EhKey} {p : Nat}
    (h : cacheFind c k = some p) : (k, p) ∈ c := by
  unfold cacheFind at h
  rcases hf : c.find? (fun e => !ehKeyLt e.1 k && !ehKeyLt k e.1) with _ | e
  · rw [hf] at h; simp at h
  · rw [hf] at h
    simp at h
    have hmem := List.mem_of_find?_eq_some hf
    have hpred := List.find?_some hf
    simp only [Bool.and_eq_true, Bool.not_eq_true'] at hpred
    have hk : e.1 = k := ehKeyLt_conn _ _ hpred.1 hpred.2
    have : e = (k, p) := by
      obtain ⟨e1, e2⟩ := e
      simp only at hk h
      rw [hk, h]
    rw [← this]
    exact hmem

theorem cacheFind_none_not_mem {c : List (EhKey × Nat)} {k : EhKey}
    (h : cacheFind c k = none) : ∀ e ∈ c, e.1 ≠ k := by
  intro e he hek
  unfold cacheFind at h
  rcases hf : c.find? (fun e => !ehKeyLt e.1 k && !ehKeyLt k e.1) with _ | x
  · have hall := List.find?_eq_none.mp hf e he
    rw [hek] at hall
    simp [ehKeyLt_irrefl] at hall
  · rw [hf] at h; simp at h

/-! Effect lemmas for one step of the eh_update loop. -/

theorem ehUpdateStep_getInsn_ne (s : IRState) (a i : Nat) (hne : i ≠ a) :
    getInsn (ehUpdateStep s a) i = getInsn s i := by
  unfold ehUpdateStep
  split
  · rfl
  · split
    · rfl
    · split
      · rfl
      · dsimp only
        split
        · exact lookupA_updateA_ne _ _ _ _ hne
        · exact lookupA_updateA_ne _ _ _ _ hne

theorem ehUpdateStep_funcs (s : IRState) (a : Nat) :
    (ehUpdateStep s a).funcs = s.funcs := by
  unfold ehUpdateStep
  split
  · rfl
  · split
    · rfl
    · split
      · rfl
      · dsimp only
        split
        · rfl
        · rfl

theorem ehUpdateStep_arch (s : IRState) (a : Nat) :
    (ehUpdateStep s a).archWidth = s.archWidth ∧
    (ehUpdateStep s a).stampValue = s.stampValue ∧
    s.nextId ≤ (ehUpdateStep s a).nextId := by
  unfold ehUpdateStep
  split
  · exact ⟨rfl, rfl, le_refl _⟩
  · split
    · exact ⟨rfl, rfl, le_refl _⟩
    · split
      · exact ⟨rfl, rfl, le_refl _⟩
      · dsimp only
        split
        · exact ⟨rfl, rfl, Nat.le_succ _⟩
        · exact ⟨rfl, rfl, le_refl _⟩

theorem ehUpdateStep_cache_mono (s : IRState) (a : Nat) (e : EhKey × Nat)
    (he : e ∈ s.cache) : e ∈ (ehUpdateStep s a).cache := by
  unfold ehUpdateStep
  split
  · exact he
  · split
    · exact he
    · split
      · exact he
      · dsimp only
        split
        · exact List.mem_cons_of_mem _ he
        · exact he

theorem ehUpdateStep_contents_pres (s : IRState) (a p : Nat) (hp : p < s.nextId) :
    lookupA (ehUpdateStep s a).ehContents p = lookupA s.ehContents p := by
  unfold ehUpdateStep
  split
  · rfl
  · split
    · rfl
    · split
      · rfl
      · dsimp only
        split
        · show lookupA ((s.nextId, _) :: s.ehContents) p = _
          rw [lookupA, if_neg (by omega)]
        · rfl

theorem ehUpdateStep_wf (s : IRState) (a : Nat) (hwf : EhWFP s) :
    EhWFP (ehUpdateStep s a) := by
  unfold ehUpdateStep
  split
  · exact hwf
  · split
    · exact hwf
    · split
      · exact hwf
      · dsimp only
        split
        · rename_i insn hins pid hpid content hcontent hfind
          obtain ⟨hwf1, hwf2, hwf3⟩ := hwf
          refine ⟨?_, ?_, ?_⟩
          · intro e he
            rcases List.mem_cons.mp he with rfl | heold
            · show lookupA ((s.nextId, _) :: s.ehContents) s.nextId = _
              simp [lookupA]
            · have hold := hwf1 e heold
              have hlt : e.2 < s.nextId := hwf3 _ (lookupA_mem hold)
              show lookupA ((s.nextId, _) :: s.ehContents) e.2 = some e.1
              rw [lookupA, if_neg (by omega)]
              exact hold
          · intro e1 he1 e2 he2 hkk
            rcases List.mem_cons.mp he1 with rfl | he1old
            · rcases List.mem_cons.mp he2 with rfl | he2old
              · rfl
              · exact absurd hkk.symm (cacheFind_none_not_mem hfind e2 he2old)
            · rcases List.mem_cons.mp he2 with rfl | he2old
              · exact absurd hkk (cacheFind_none_not_mem hfind e1 he1old)
              · exact hwf2 e1 he1old e2 he2old hkk
          · intro e he
            rcases List.mem_cons.mp he with rfl | heold
            · exact Nat.lt_succ_self _
            · exact Nat.lt_succ_of_lt (hwf3 e heold)
        · exact hwf

theorem ehUpdateStep_processes (s : IRState) (a : Nat) (ins : Instruction) (p0 : Nat)
    (c0 : EhKey) (hg : getInsn s a = some ins) (hp : ins.ehpgm = some p0)
    (hc : lookupA s.ehContents p0 = some c0) :
    ∃ q, getInsn (ehUpdateStep s a) a = some { ins with ehpgm := some q } ∧
      (deriveKey s.archWidth s.stampValue c0, q) ∈ (ehUpdateStep s a).cache := by
  unfold ehUpdateStep
  rw [hg]
  dsimp only
  rw [hp]
  dsimp only
  rw [hc]
  dsimp only
  rcases hfind : cacheFind s.cache (deriveKey s.archWidth s.stampValue c0) with _ | q
  · dsimp only
    refine ⟨s.nextId, ?_, List.mem_cons_self _ _⟩
    exact lookupA_updateA_self _ hg
  · dsimp only
    refine ⟨q, ?_, ?_⟩
    · exact lookupA_updateA_self _ hg
    · exact cacheFind_some_mem hfind

/-! Run-level lemmas for the eh_update loop. -/

theorem ehRun_getInsn_not_mem (ids : List Nat) (s : IRState) (i : Nat) (hi : i ∉ ids) :
    getInsn (ehStepRun s ids) i = getInsn s i := by
  induction ids generalizing s with
  | nil => rfl
  | cons a rest ih =>
    show getInsn (ehStepRun (ehUpdateStep s a) rest) i = _
    have h1 : i ≠ a := fun h => hi (h ▸ List.mem_cons_self _ _)
    rw [ih _ (fun h => hi (List.mem_cons_of_mem _ h)), ehUpdateStep_getInsn_ne s a i h1]

theorem ehRun_funcs (ids : List Nat) (s : IRState) :
    (ehStepRun s ids).funcs = s.funcs := by
  induction ids generalizing s with
  | nil => rfl
  | cons a rest ih =>
    show (ehStepRun (ehUpdateStep s a) rest).funcs = _
    rw [ih, ehUpdateStep_funcs]

theorem ehRun_arch (ids : List Nat) (s : IRState) :
    (ehStepRun s ids).archWidth = s.archWidth ∧
    (ehStepRun s ids).stampValue = s.stampValue ∧
    s.nextId ≤ (ehStepRun s ids).nextId := by
  induction ids generalizing s with
  | nil => exact ⟨rfl, rfl, le_refl _⟩
  | cons a rest ih =>
    obtain ⟨ha, hv, hn⟩ := ih (ehUpdateStep s a)
    obtain ⟨ha2, hv2, hn2⟩ := ehUpdateStep_arch s a
    exact ⟨ha.trans ha2, hv.trans hv2, le_trans hn2 hn⟩

theorem ehRun_cache_mono (ids : List Nat) (s : IRState) (e : EhKey × Nat)
    (he : e ∈ s.cache) : e ∈ (ehStepRun s ids).cache := by
  induction ids generalizing s with
  | nil => exact he
  | cons a rest ih => exact ih (ehUpdateStep s a) (ehUpdateStep_cache_mono s a e he)

theorem ehRun_wf (ids : List Nat) (s : IRState) (hwf : EhWFP s) :
    EhWFP (ehStepRun s ids) := by
  induction ids generalizing s with
  | nil => exact hwf
  | cons a rest ih => exact ih (ehUpdateStep s a) (ehUpdateStep_wf s a hwf)

theorem ehRun_processed :
    ∀ (ids : List Nat) (s : IRState), EhWFP s → ids.Nodup →
    ∀ i ∈ ids, ∀ (ins : Instruction) (p0 : Nat) (c0 : EhKey),
    getInsn s i = some ins → ins.ehpgm = some p0 →
    lookupA s.ehContents p0 = some c0 →
    ∃ q, getInsn (ehStepRun s ids) i = some { ins with ehpgm := some q } ∧
      (deriveKey s.archWidth s.stampValue c0, q) ∈ (ehStepRun s ids).cache := by
  intro ids
  induction ids with
  | nil => intro s _ _ i hi; cases hi
  | cons a rest ih =>
    intro s hwf hnd i hi ins p0 c0 hg hp hc
    obtain ⟨ha, hndr⟩ := List.nodup_cons.mp hnd
    show ∃ q, getInsn (ehStepRun (ehUpdateStep s a) rest) i = _ ∧
      (deriveKey s.archWidth s.stampValue c0, q) ∈ (ehStepRun (ehUpdateStep s a) rest).cache
    rcases List.mem_cons.mp hi with rfl | hir
    · obtain ⟨q, hq1, hq2⟩ := ehUpdateStep_processes s i ins p0 c0 hg hp hc
      refine ⟨q, ?_, ?_⟩
      · rw [ehRun_getInsn_not_mem rest _ i ha]
        exact hq1
      · exact ehRun_cache_mono rest _ _ hq2
    · have hia : i ≠ a := fun h => ha (h ▸ hir)
      have hg2 : getInsn (ehUpdateStep s a) i = some ins := by
        rw [ehUpdateStep_getInsn_ne s a i hia]; exact hg
      have hp0lt : p0 < s.nextId := hwf.2.2 _ (lookupA_mem hc)
      have hc2 : lookupA (ehUpdateStep s a).ehContents p0 = some c0 := by
        rw [ehUpdateStep_contents_pres s a p0 hp0lt]; exact hc
      obtain ⟨harch, hval, _⟩ := ehUpdateStep_arch s a
      obtain ⟨q, hq1, hq2⟩ :=
        ih (ehUpdateStep s a) (ehUpdateStep_wf s a hwf) hndr i hir ins p0 c0 hg2 hp hc2
      rw [harch, hval] at hq2
      exact ⟨q, hq1, hq2⟩

/-! Flattening of eh_update over a list of functions to a single run. -/

theorem ehUpdate_eq_run (s : IRState) (fid : Nat) :
    ehUpdate s fid = ehStepRun s (funcInsnIds s fid) := by
  cases h : lookupA s.funcs fid with
  | none => simp [ehUpdate, funcInsnIds, ehStepRun, h]
  | some f => simp [ehUpdate, funcInsnIds, ehStepRun, h]

theorem ehUpdate_funcs (s : IRState) (fid : Nat) :
    (ehUpdate s fid).funcs = s.funcs := by
  rw [ehUpdate_eq_run]
  exact ehRun_funcs _ _

theorem ehStepRun_append (s : IRState) (l1 l2 : List Nat) :
    ehStepRun s (l1 ++ l2) = ehStepRun (ehStepRun s l1) l2 := by
  unfold ehStepRun
  rw [List.foldl_append]

theorem ehUpdateAll_eq_run (s : IRState) (fids : List Nat) :
    ehUpdateAll s fids = ehStepRun s (funcInsnConcat s fids) := by
  induction fids generalizing s with
  | nil => rfl
  | cons a rest ih =>
    show ehUpdateAll (ehUpdate s a) rest = ehStepRun s (funcInsnIds s a ++ funcInsnConcat s rest)
    rw [ih (ehUpdate s a), ehStepRun_append, ← ehUpdate_eq_run]
    have hfuncs : ∀ g, funcInsnIds (ehUpdate s a) g = funcInsnIds s g := by
      intro g
      unfold funcInsnIds
      rw [ehUpdate_funcs]
    have hcons : ∀ l, funcInsnConcat (ehUpdate s a) l = funcInsnConcat s l := by
      intro l
      induction l with
      | nil => rfl
      | cons b bs ihb =>
        show funcInsnIds (ehUpdate s a) b ++ _ = _
        rw [hfuncs b, ihb]
        rfl
    rw [hcons]

/-- Claim C3: after eh_update has run over every function of the list
(with the instruction lists of the functions pairwise disjoint and
duplicate-free, as instruction ownership guarantees), any two processed
instructions whose derived unwind programs are content-equal on all seven
fields reference the identical stored unwind-program object, the cache
never maps two content-equal keys to distinct stored objects, and every
stored object carries exactly the content of its key (so two distinct
stored objects are never content-equal). -/
theorem c3_sharing (s : IRState) (fids : List Nat) (hwf : EhWFP s)
    (hnd : (funcInsnConcat s fids).Nodup)
    (i1 i2 : Nat) (ins1 ins2 : Instruction) (p1 p2 : Nat) (c1 c2 : EhKey)
    (h1 : i1 ∈ funcInsnConcat s fids) (h2 : i2 ∈ funcInsnConcat s fids)
    (hg1 : getInsn s i1 = some ins1) (hp1 : ins1.ehpgm = some p1)
    (hc1 : lookupA s.ehContents p1 = some c1)
    (hg2 : getInsn s i2 = some ins2) (hp2 : ins2.ehpgm = some p2)
    (hc2 : lookupA s.ehContents p2 = some c2)
    (hkey : deriveKey s.archWidth s.stampValue c1 = deriveKey s.archWidth s.stampValue c2) :
    (∃ q, (getInsn (ehUpdateAll s fids) i1).bind (fun x => x.ehpgm) = some q ∧
          (getInsn (ehUpdateAll s fids) i2).bind (fun x => x.ehpgm) = some q) ∧
    (∀ e1 ∈ (ehUpdateAll s fids).cache, ∀ e2 ∈ (ehUpdateAll s fids).cache,
        e1.1 = e2.1 → e1.2 = e2.2) ∧
    (∀ e ∈ (ehUpdateAll s fids).cache,
        lookupA (ehUpdateAll s fids).ehContents e.2 = some e.1) := by
  rw [ehUpdateAll_eq_run]
  have hfin := ehRun_wf (funcInsnConcat s fids) s hwf
  obtain ⟨q1, hq1a, hq1b⟩ :=
    ehRun_processed (funcInsnConcat s fids) s hwf hnd i1 h1 ins1 p1 c1 hg1 hp1 hc1
  obtain ⟨q2, hq2a, hq2b⟩ :=
    ehRun_processed (funcInsnConcat s fids) s hwf hnd i2 h2 ins2 p2 c2 hg2 hp2 hc2
  rw [hkey] at hq1b
  have hqq : q1 = q2 := hfin.2.1 _ hq1b _ hq2b rfl
  refine ⟨⟨q1, ?_, ?_⟩, hfin.2.1, hfin.1⟩
  · rw [hq1a]
    rfl
  · rw [hq2a, hqq]
    rfl

/-- Witness for claim C3 at a concrete input: the two instructions of
exEh hold distinct unwind-program objects with content-equal programs
and end up referencing one shared stored object. -/
theorem c3_sharing_witness :
    (∃ q, (getInsn (ehUpdateAll exEh [1, 2]) 10).bind (fun x => x.ehpgm) = some q ∧
          (getInsn (ehUpdateAll exEh [1, 2]) 20).bind (fun x => x.ehpgm) = some q) ∧
    (∀ e1 ∈ (ehUpdateAll exEh [1, 2]).cache, ∀ e2 ∈ (ehUpdateAll exEh [1, 2]).cache,
        e1.1 = e2.1 → e1.2 = e2.2) ∧
    (∀ e ∈ (ehUpdateAll exEh [1, 2]).cache,
        lookupA (ehUpdateAll exEh [1, 2]).ehContents e.2 = some e.1) :=
  c3_sharing exEh [1, 2] (by decide) (by decide) 10 20
    { defInsn with isRet := true, ehpgm := some 50, func := some 1, asm := "ret" }
    { defInsn with isRet := true, ehpgm := some 51, func := some 2, asm := "ret" }
    50 51 ehKey0 ehKey0 (by decide) (by decide) rfl rfl rfl rfl rfl rfl rfl

end Stamper
